import Mathlib

/-!
Shallow embedding of `src/parser/markdown.rs` (a nom-based markdown parser).

Input is modelled as `List Char` (nom's `&str` combinators used here all
operate at char granularity: `tag` prefixes, `is_not`/`take_while1` with a
character set, `take(1)` takes one char).  A parser result mirrors nom's
`IResult<&str, T>`: `some (rest, value)` for `Ok((rest, value))` and `none`
for `Err(Error(..))` (no parser in this file produces `Failure`/`Incomplete`;
all combinators are from `complete`).

nom's `many0`/`many1` loops error out when the inner parser succeeds without
consuming input; this check bounds the iteration count by the input length,
which the embedding uses as fuel (`pmanyAux`), keeping every definition
structurally recursive and hence kernel-evaluable.
-/

namespace DoubleDown

abbrev Input := List Char

abbrev PResult (α : Type) := Option (Input × α)

/-- Inline enum `MarkdownInLine` from the source. -/
inductive MarkdownInLine where
  | Link (tag url : List Char)
  | Image (tag url : List Char)
  | InlineCode (code : List Char) (language : Option (List Char))
  | Bold (s : List Char)
  | Italic (s : List Char)
  | Plain (s : List Char)
deriving DecidableEq

/-- Block enum `Markdown` from the source (`Heading` carries the number
of `#` and the text; `CodeBlock` carries `(code, language)`). -/
inductive Markdown where
  | Heading (level : Nat) (text : List MarkdownInLine)
  | OrderedList (items : List (List MarkdownInLine))
  | UnorderedList (items : List (List MarkdownInLine))
  | Quote (lines : List (List MarkdownInLine))
  | CodeBlock (code : List Char) (language : Option (List Char))
  | Text (text : List MarkdownInLine)
deriving DecidableEq

/-- nom `tag(t)`: succeed iff `t` is a literal prefix of the input. -/
def ptag (t : Input) (i : Input) : PResult Input :=
  if t.isPrefixOf i then some (i.drop t.length, t) else none

/-- nom `bytes::complete::is_not(set)`: longest non-empty prefix of characters
none of which occurs in `set`; fails if the first character is in `set` or the
input is empty. -/
def isNotP (set : Input) (i : Input) : PResult Input :=
  if i.takeWhile (fun c => !(set.contains c)) = [] then none
  else some (i.drop (i.takeWhile (fun c => !(set.contains c))).length,
             i.takeWhile (fun c => !(set.contains c)))

/-- nom `take_while1(p)`. -/
def takeWhile1P (p : Char → Bool) (i : Input) : PResult Input :=
  if i.takeWhile p = [] then none
  else some (i.drop (i.takeWhile p).length, i.takeWhile p)

/-- nom `take(1u8)` on `&str`: one char. -/
def take1 (i : Input) : PResult Char :=
  match i with
  | [] => none
  | c :: r => some (r, c)

/-- nom `combinator::not`. -/
def pnot {α : Type} (p : Input → PResult α) (i : Input) : PResult Unit :=
  match p i with
  | some _ => none
  | none => some (i, ())

/-- nom `combinator::opt`. -/
def popt {α : Type} (p : Input → PResult α) (i : Input) : PResult (Option α) :=
  match p i with
  | some (r, v) => some (r, some v)
  | none => some (i, none)

/-- nom `sequence::pair` / two-element `tuple`. -/
def ppair {α β : Type} (p : Input → PResult α) (q : Input → PResult β) (i : Input) :
    PResult (α × β) :=
  match p i with
  | none => none
  | some (r, a) =>
    match q r with
    | none => none
    | some (r2, b) => some (r2, (a, b))

/-- nom `sequence::delimited`. -/
def pdelimited {α β γ : Type} (a : Input → PResult α) (b : Input → PResult β)
    (c : Input → PResult γ) (i : Input) : PResult β :=
  match a i with
  | none => none
  | some (r1, _) =>
    match b r1 with
    | none => none
    | some (r2, v) =>
      match c r2 with
      | none => none
      | some (r3, _) => some (r3, v)

/-- nom `sequence::preceded`. -/
def ppreceded {α β : Type} (a : Input → PResult α) (b : Input → PResult β) (i : Input) :
    PResult β :=
  match a i with
  | none => none
  | some (r1, _) => b r1

/-- nom `sequence::terminated`. -/
def pterminated {α β : Type} (a : Input → PResult α) (b : Input → PResult β) (i : Input) :
    PResult α :=
  match a i with
  | none => none
  | some (r1, v) =>
    match b r1 with
    | none => none
    | some (r2, _) => some (r2, v)

/-- The loop shared by nom's `many0`/`many1`: iterate the inner parser,
stopping at the first failure, erroring if an iteration succeeds without
consuming input.  Progress bounds the iteration count by the input length,
supplied as fuel. -/
def pmanyAux {α : Type} (p : Input → PResult α) : Nat → Input → PResult (List α)
  | 0, i =>
    match p i with
    | none => some (i, [])
    | some _ => none
  | fuel + 1, i =>
    match p i with
    | none => some (i, [])
    | some (r, v) =>
      if r.length < i.length then
        match pmanyAux p fuel r with
        | none => none
        | some (r2, vs) => some (r2, v :: vs)
      else none

/-- nom `multi::many0`. -/
def pmany0 {α : Type} (p : Input → PResult α) (i : Input) : PResult (List α) :=
  pmanyAux p (i.length + 1) i

/-- nom `multi::many1`: the first application must succeed; the rest is the
`many0` loop. -/
def pmany1 {α : Type} (p : Input → PResult α) (i : Input) : PResult (List α) :=
  match p i with
  | none => none
  | some (r, v) =>
    if r.length < i.length then
      match pmany0 p r with
      | none => none
      | some (r2, vs) => some (r2, v :: vs)
    else none

/-- Source `parse_link`: `pair(delimited(tag("["), is_not("]"), tag("]")),
delimited(tag("("), is_not(")"), tag(")")))`. -/
def parse_link (i : Input) : PResult (Input × Input) :=
  ppair (pdelimited (ptag ['[']) (isNotP [']']) (ptag [']']))
        (pdelimited (ptag ['(']) (isNotP [')']) (ptag [')'])) i

/-- Source `parse_image`: like `parse_link` with a leading `![`. -/
def parse_image (i : Input) : PResult (Input × Input) :=
  ppair (pdelimited (ptag ['!', '[']) (isNotP [']']) (ptag [']']))
        (pdelimited (ptag ['(']) (isNotP [')']) (ptag [')'])) i

/-- The whitespace set `" \t\r\n"` used by `parse_inline`'s language tag. -/
def wsChars : Input := [' ', '\t', '\r', '\n']

/-- Source `parse_inline`: `` pair(delimited(tag("`"), is_not("`"), tag("`")),
opt(delimited(tag(""), is_not(" \t\r\n"), not(is_not(" \t\r\n"))))) ``. -/
def parse_inline (i : Input) : PResult (Input × Option Input) :=
  ppair (pdelimited (ptag ['`']) (isNotP ['`']) (ptag ['`']))
        (popt (pdelimited (ptag []) (isNotP wsChars) (pnot (isNotP wsChars)))) i

/-- Source `parse_bold`: `delimited(tag("**"), is_not("**"), tag("**"))`.  Note that
nom's `is_not("**")` treats its argument as a character set, here `{'*'}`. -/
def parse_bold (i : Input) : PResult Input :=
  pdelimited (ptag ['*', '*']) (isNotP ['*', '*']) (ptag ['*', '*']) i

/-- Source `parse_italic`: `delimited(tag("*"), is_not("*"), tag("*"))`. -/
def parse_italic (i : Input) : PResult Input :=
  pdelimited (ptag ['*']) (isNotP ['*']) (ptag ['*']) i

/-- The `alt((tag("*"), tag("`"), tag("["), tag("!["), tag("\n")))` inside
`parse_plain`. -/
def parse_special (i : Input) : PResult Input :=
  match ptag ['*'] i with
  | some r => some r
  | none =>
  match ptag ['`'] i with
  | some r => some r
  | none =>
  match ptag ['['] i with
  | some r => some r
  | none =>
  match ptag ['!', '['] i with
  | some r => some r
  | none => ptag ['\n'] i

/-- One step of `parse_plain`: `preceded(not(alt(..)), take(1u8))`. -/
def plain_step (i : Input) : PResult Char :=
  ppreceded (pnot parse_special) take1 i

/-- Source `parse_plain`: `map(many1(preceded(not(alt(..)), take(1))), join)`.
Joining the one-char strings yields the list of taken chars. -/
def parse_plain (i : Input) : PResult (List Char) :=
  pmany1 plain_step i

/-- Source `parse_markdown_inline`: `alt` over plain, bold, italic, inline code,
image, link — in that order — each mapped to its `MarkdownInLine` variant. -/
def parse_markdown_inline (i : Input) : PResult MarkdownInLine :=
  match parse_plain i with
  | some (r, s) => some (r, .Plain s)
  | none =>
  match parse_bold i with
  | some (r, s) => some (r, .Bold s)
  | none =>
  match parse_italic i with
  | some (r, s) => some (r, .Italic s)
  | none =>
  match parse_inline i with
  | some (r, (code, language)) => some (r, .InlineCode code language)
  | none =>
  match parse_image i with
  | some (r, (t, url)) => some (r, .Image t url)
  | none =>
  match parse_link i with
  | some (r, (t, url)) => some (r, .Link t url)
  | none => none

/-- Source `parse_markdown_text`: `terminated(many0(parse_markdown_inline), tag("\n"))`. -/
def parse_markdown_text (i : Input) : PResult (List MarkdownInLine) :=
  pterminated (pmany0 parse_markdown_inline) (ptag ['\n']) i

/-- Source `parse_header_tag`: `map(terminated(take_while1(c == '#'), tag(" ")), len)`. -/
def parse_header_tag (i : Input) : PResult Nat :=
  match pterminated (takeWhile1P (fun c => c == '#')) (ptag [' ']) i with
  | none => none
  | some (r, s) => some (r, s.length)

/-- Source `parse_header`: `tuple((parse_header_tag, parse_markdown_text))`. -/
def parse_header (i : Input) : PResult (Nat × List MarkdownInLine) :=
  ppair parse_header_tag parse_markdown_text i

/-- Source `parse_unordered_list_tag`: `terminated(tag("-"), tag(" "))`. -/
def parse_unordered_list_tag (i : Input) : PResult Input :=
  pterminated (ptag ['-']) (ptag [' ']) i

/-- Source `parse_unordered_list_element`. -/
def parse_unordered_list_element (i : Input) : PResult (List MarkdownInLine) :=
  ppreceded parse_unordered_list_tag parse_markdown_text i

/-- Source `parse_unordered_list`: `many1(parse_unordered_list_element)`. -/
def parse_unordered_list (i : Input) : PResult (List (List MarkdownInLine)) :=
  pmany1 parse_unordered_list_element i

/-- Source `is_digit(d as u8)`: the char truncated to a byte is an ASCII digit. -/
def isDigitByte (d : Char) : Bool :=
  48 ≤ d.toNat % 256 && d.toNat % 256 ≤ 57

/-- Source `parse_ordered_list_tag`:
`terminated(terminated(take_while1(is_digit), tag(".")), tag(" "))`. -/
def parse_ordered_list_tag (i : Input) : PResult Input :=
  pterminated (pterminated (takeWhile1P isDigitByte) (ptag ['.'])) (ptag [' ']) i

/-- Source `parse_ordered_list_element`. -/
def parse_ordered_list_element (i : Input) : PResult (List MarkdownInLine) :=
  ppreceded parse_ordered_list_tag parse_markdown_text i

/-- Source `parse_ordered_list`: `many1(parse_ordered_list_element)`. -/
def parse_ordered_list (i : Input) : PResult (List (List MarkdownInLine)) :=
  pmany1 parse_ordered_list_element i

/-- Source `parse_quote_tag`: `terminated(tag(">"), tag(" "))`. -/
def parse_quote_tag (i : Input) : PResult Input :=
  pterminated (ptag ['>']) (ptag [' ']) i

/-- Source `parse_quote_line`. -/
def parse_quote_line (i : Input) : PResult (List MarkdownInLine) :=
  ppreceded parse_quote_tag parse_markdown_text i

/-- Source `parse_quote`: `many1(parse_quote_line)`. -/
def parse_quote (i : Input) : PResult (List (List MarkdownInLine)) :=
  pmany1 parse_quote_line i

/-- Source `parse_code_block`: `` tuple((delimited(tag("```"), is_not("\n"), tag("\n")),
delimited(tag(""), is_not("```"), tag("```")))) ``; the value is
`(fence-line remainder, code)`. -/
def parse_code_block (i : Input) : PResult (Input × Input) :=
  ppair (pdelimited (ptag ['`', '`', '`']) (isNotP ['\n']) (ptag ['\n']))
        (pdelimited (ptag []) (isNotP ['`', '`', '`']) (ptag ['`', '`', '`'])) i

/-- Rust `str::trim` (on the ASCII inputs arising here: space, tab, CR, LF). -/
def trimChars (s : Input) : Input :=
  ((s.dropWhile Char.isWhitespace).reverse.dropWhile Char.isWhitespace).reverse

/-- One block alternative of `parse_markdown`'s `alt`, in source order,
including the language-trimming `map` on the code-block branch. -/
def parse_markdown_block (i : Input) : PResult Markdown :=
  match parse_header i with
  | some (r, (n, t)) => some (r, .Heading n t)
  | none =>
  match parse_ordered_list i with
  | some (r, e) => some (r, .OrderedList e)
  | none =>
  match parse_unordered_list i with
  | some (r, e) => some (r, .UnorderedList e)
  | none =>
  match parse_quote i with
  | some (r, e) => some (r, .Quote e)
  | none =>
  match parse_code_block i with
  | some (r, (language, code)) =>
    some (r, .CodeBlock code (if trimChars language = [] then none else some (trimChars language)))
  | none =>
  match parse_markdown_text i with
  | some (r, t) => some (r, .Text t)
  | none => none

/-- Source `parse_markdown`: `many1(alt((..block alternatives..)))`. -/
def parse_markdown (i : Input) : PResult (List Markdown) :=
  pmany1 parse_markdown_block i

end DoubleDown

namespace DoubleDown

/-! ### Generic facts about the embedded nom combinators -/

theorem ptag_append (t r : Input) : ptag t (t ++ r) = some (r, t) := by
  have h : t.isPrefixOf (t ++ r) = true :=
    List.isPrefixOf_iff_prefix.mpr (List.prefix_append t r)
  simp [ptag, h, List.drop_left]

theorem ptag_some {t i r v : Input} (h : ptag t i = some (r, v)) :
    v = t ∧ i = t ++ r := by
  rw [ptag] at h
  by_cases hp : t.isPrefixOf i
  · rw [if_pos hp] at h
    simp only [Option.some.injEq, Prod.mk.injEq] at h
    obtain ⟨hr, hv⟩ := h
    obtain ⟨s, hs⟩ := List.isPrefixOf_iff_prefix.mp hp
    subst hs
    rw [List.drop_left] at hr
    exact ⟨hv.symm, by rw [hr]⟩
  · rw [if_neg hp] at h
    exact absurd h (by simp)

theorem contains_false_of_forall_ne {set : Input} {c : Char} (h : ∀ d ∈ set, c ≠ d) :
    set.contains c = false := by
  rw [List.contains_eq_any_beq]
  simp only [List.any_eq_false]
  intro d hd
  simp [h d hd]

theorem contains_true_of_mem {set : Input} {c : Char} (h : c ∈ set) :
    set.contains c = true := by
  rw [List.contains_eq_any_beq]
  simp only [List.any_eq_true]
  exact ⟨c, h, by simp⟩

theorem isNotP_append (set x s : Input) (hne : x ≠ [])
    (hx : ∀ c ∈ x, set.contains c = false)
    (hs : ∀ c, s.head? = some c → set.contains c = true) :
    isNotP set (x ++ s) = some (s, x) := by
  have ht : (x ++ s).takeWhile (fun c => !(set.contains c)) = x := by
    rw [List.takeWhile_append_of_pos
      (by intro a ha; have h2 := hx a ha; simp at h2 ⊢; exact h2)]
    cases s with
    | nil => simp
    | cons c t =>
      rw [List.takeWhile_cons_of_neg
        (by have h2 := hs c rfl; simp at h2 ⊢; exact h2)]
      simp
  rw [isNotP, ht, if_neg hne, List.drop_left]

theorem isNotP_some {set i r t : Input} (h : isNotP set i = some (r, t)) :
    i = t ++ r ∧ t ≠ [] ∧ ∀ c ∈ t, set.contains c = false := by
  rw [isNotP] at h
  by_cases he : i.takeWhile (fun c => !(set.contains c)) = []
  · rw [if_pos he] at h
    exact absurd h (by simp)
  · rw [if_neg he] at h
    simp only [Option.some.injEq, Prod.mk.injEq] at h
    obtain ⟨hr, htw⟩ := h
    obtain ⟨s, hs⟩ := List.takeWhile_prefix (l := i) (fun c => !(set.contains c))
    rw [htw] at hs
    refine ⟨?_, ?_, ?_⟩
    · rw [htw] at hr
      rw [← hs, List.drop_left] at hr
      rw [← hs, hr]
    · rw [← htw]; exact he
    · intro c hc
      rw [← htw] at hc
      have := List.mem_takeWhile_imp hc
      simpa using this

theorem pmanyAux_congr {α : Type} (p : Input → PResult α) :
    ∀ f1 f2 : Nat, ∀ i : Input, i.length < f1 → i.length < f2 →
      pmanyAux p f1 i = pmanyAux p f2 i := by
  intro f1
  induction f1 with
  | zero => intro f2 i h1 h2; exact absurd h1 (Nat.not_lt_zero _)
  | succ n ih =>
    intro f2 i h1 h2
    cases f2 with
    | zero => exact absurd h2 (Nat.not_lt_zero _)
    | succ m =>
      simp only [pmanyAux]
      cases hp : p i with
      | none => rfl
      | some rv =>
        obtain ⟨r, v⟩ := rv
        dsimp only
        by_cases hlt : r.length < i.length
        · rw [if_pos hlt, if_pos hlt, ih m r (by omega) (by omega)]
        · rw [if_neg hlt, if_neg hlt]

theorem pmany0_of_none {α : Type} {p : Input → PResult α} {i : Input} (h : p i = none) :
    pmany0 p i = some (i, []) := by
  rw [pmany0, pmanyAux, h]

theorem pmany0_of_some {α : Type} {p : Input → PResult α} {i r : Input} {v : α}
    (h : p i = some (r, v)) (hlt : r.length < i.length) :
    pmany0 p i =
      match pmany0 p r with
      | none => none
      | some (r2, vs) => some (r2, v :: vs) := by
  rw [pmany0, pmanyAux, h]
  dsimp only
  rw [if_pos hlt, pmanyAux_congr p i.length (r.length + 1) r hlt (Nat.lt_succ_self _)]
  rfl

theorem pmany1_of_some {α : Type} {p : Input → PResult α} {i r : Input} {v : α}
    (h : p i = some (r, v)) (hlt : r.length < i.length) :
    pmany1 p i =
      match pmany0 p r with
      | none => none
      | some (r2, vs) => some (r2, v :: vs) := by
  rw [pmany1, h]
  dsimp only
  rw [if_pos hlt]

end DoubleDown

namespace DoubleDown

/-! ### Facts about the plain-text matcher and the inline dispatcher -/

theorem ptag_single_none {a c : Char} {s : Input} (h : c ≠ a) :
    ptag [a] (c :: s) = none := by
  have hp : ([a] : Input).isPrefixOf (c :: s) = false := by
    rw [List.isPrefixOf_cons₂, List.isPrefixOf_nil_left, Bool.and_true]
    exact beq_eq_false_iff_ne.mpr (Ne.symm h)
  rw [ptag, hp]
  rfl

theorem parse_special_newline (r : Input) : parse_special ('\n' :: r) = some (r, ['\n']) := by
  have h5 : ptag ['\n'] ('\n' :: r) = some (r, ['\n']) := ptag_append ['\n'] r
  have t1 : ptag ['*'] ('\n' :: r) = none := ptag_single_none (by decide)
  have t2 : ptag ['`'] ('\n' :: r) = none := ptag_single_none (by decide)
  have t3 : ptag ['['] ('\n' :: r) = none := ptag_single_none (by decide)
  have t4 : ptag ['!', '['] ('\n' :: r) = none := rfl
  rw [parse_special, t1, t2, t3, t4, h5]

theorem parse_special_star (s : Input) : parse_special ('*' :: s) = some (s, ['*']) := by
  have h : ptag ['*'] ('*' :: s) = some (s, ['*']) := ptag_append ['*'] s
  rw [parse_special, h]

theorem plain_step_none_newline (r : Input) : plain_step ('\n' :: r) = none := by
  rw [plain_step, ppreceded, pnot, parse_special_newline]

theorem plain_step_none_star (s : Input) : plain_step ('*' :: s) = none := by
  rw [plain_step, ppreceded, pnot, parse_special_star]

theorem inline_none_newline (r : Input) : parse_markdown_inline ('\n' :: r) = none := by
  have hplain : parse_plain ('\n' :: r) = none := by
    rw [parse_plain, pmany1, plain_step_none_newline]
  have hbold : parse_bold ('\n' :: r) = none := by
    rw [parse_bold, pdelimited]
    rw [show ptag ['*', '*'] ('\n' :: r) = none from rfl]
  have hitalic : parse_italic ('\n' :: r) = none := by
    rw [parse_italic, pdelimited, ptag_single_none (by decide)]
  have hinline : parse_inline ('\n' :: r) = none := by
    rw [parse_inline, ppair, pdelimited, ptag_single_none (by decide)]
  have himage : parse_image ('\n' :: r) = none := by
    rw [parse_image, ppair, pdelimited]
    rw [show ptag ['!', '['] ('\n' :: r) = none from rfl]
  have hlink : parse_link ('\n' :: r) = none := by
    rw [parse_link, ppair, pdelimited, ptag_single_none (by decide)]
  rw [parse_markdown_inline, hplain, hbold, hitalic, hinline, himage, hlink]

theorem plain_step_cons {c : Char} {s : Input}
    (h1 : c ≠ '*') (h2 : c ≠ '`') (h3 : c ≠ '[') (h4 : c ≠ '\n')
    (h5 : c = '!' → s.head? ≠ some '[') :
    plain_step (c :: s) = some (s, c) := by
  have hsp : parse_special (c :: s) = none := by
    have t4 : ptag ['!', '['] (c :: s) = none := by
      by_cases hc : c = '!'
      · subst hc
        have hp : (['!', '['] : Input).isPrefixOf ('!' :: s) = false := by
          cases s with
          | nil => rfl
          | cons d t =>
            have hd : d ≠ '[' := by
              intro hdeq
              exact (h5 rfl) (by rw [hdeq]; rfl)
            rw [List.isPrefixOf_cons₂, List.isPrefixOf_cons₂]
            have hb : ('[' == d) = false := beq_eq_false_iff_ne.mpr (Ne.symm hd)
            rw [hb]
            rfl
        rw [ptag, hp]
        rfl
      · have hp : (['!', '['] : Input).isPrefixOf (c :: s) = false := by
          rw [List.isPrefixOf_cons₂]
          have hb : ('!' == c) = false := beq_eq_false_iff_ne.mpr (Ne.symm hc)
          rw [hb]
          rfl
        rw [ptag, hp]
        rfl
    rw [parse_special, ptag_single_none h1, ptag_single_none h2, ptag_single_none h3, t4,
        ptag_single_none h4]
  rw [plain_step, ppreceded, pnot, hsp]
  rfl

theorem pmany0_plain (rest : Input) :
    ∀ line : Input, (∀ c ∈ line, c ≠ '*' ∧ c ≠ '`' ∧ c ≠ '[' ∧ c ≠ '\n') →
      pmany0 plain_step (line ++ '\n' :: rest) = some ('\n' :: rest, line) := by
  intro line
  induction line with
  | nil =>
    intro _
    rw [List.nil_append]
    exact pmany0_of_none (plain_step_none_newline rest)
  | cons c line2 ih =>
    intro h
    have hc := h c (by simp)
    have hstep : plain_step (c :: (line2 ++ '\n' :: rest)) = some (line2 ++ '\n' :: rest, c) := by
      refine plain_step_cons hc.1 hc.2.1 hc.2.2.1 hc.2.2.2 ?_
      intro _ hcontra
      cases line2 with
      | nil => simp at hcontra
      | cons d t =>
        have hd := (h d (by simp)).2.2.1
        simp at hcontra
        exact hd hcontra
    rw [List.cons_append, pmany0_of_some hstep (by simp),
        ih (fun a ha => h a (by simp [ha]))]

theorem parse_plain_line (line rest : Input) (hne : line ≠ [])
    (h : ∀ c ∈ line, c ≠ '*' ∧ c ≠ '`' ∧ c ≠ '[' ∧ c ≠ '\n') :
    parse_plain (line ++ '\n' :: rest) = some ('\n' :: rest, line) := by
  cases line with
  | nil => exact absurd rfl hne
  | cons c line2 =>
    have hc := h c (by simp)
    have hstep : plain_step (c :: (line2 ++ '\n' :: rest)) = some (line2 ++ '\n' :: rest, c) := by
      refine plain_step_cons hc.1 hc.2.1 hc.2.2.1 hc.2.2.2 ?_
      intro _ hcontra
      cases line2 with
      | nil => simp at hcontra
      | cons d t =>
        have hd := (h d (by simp)).2.2.1
        simp at hcontra
        exact hd hcontra
    rw [parse_plain, List.cons_append, pmany1_of_some hstep (by simp),
        pmany0_plain rest line2 (fun a ha => h a (by simp [ha]))]

theorem inline_of_plain {i r : Input} {s : List Char} (h : parse_plain i = some (r, s)) :
    parse_markdown_inline i = some (r, .Plain s) := by
  rw [parse_markdown_inline, h]

end DoubleDown


namespace DoubleDown

/-! ### Facts about the bold matcher -/

theorem parse_bold_append (t r : Input) (hne : t ≠ []) (h : ∀ c ∈ t, c ≠ '*') :
    parse_bold ('*' :: '*' :: (t ++ '*' :: '*' :: r)) = some (r, t) := by
  have h1 : ptag ['*', '*'] ('*' :: '*' :: (t ++ '*' :: '*' :: r))
      = some (t ++ '*' :: '*' :: r, ['*', '*']) := ptag_append ['*', '*'] (t ++ '*' :: '*' :: r)
  have h2 : isNotP ['*', '*'] (t ++ '*' :: '*' :: r) = some ('*' :: '*' :: r, t) := by
    refine isNotP_append ['*', '*'] t ('*' :: '*' :: r) hne ?_ ?_
    · intro c hc
      refine contains_false_of_forall_ne ?_
      intro d hd
      simp at hd
      subst hd
      exact h c hc
    · intro c hc
      simp at hc
      subst hc
      exact contains_true_of_mem (by simp)
  have h3 : ptag ['*', '*'] ('*' :: '*' :: r) = some (r, ['*', '*']) := ptag_append ['*', '*'] r
  simp only [parse_bold, pdelimited, h1, h2, h3]

theorem plain_step_some_ne_newline {i r : Input} {c : Char} (h : plain_step i = some (r, c)) :
    c ≠ '\n' := by
  rw [plain_step, ppreceded] at h
  cases hn : pnot parse_special i with
  | none => rw [hn] at h; exact absurd h (by simp)
  | some p =>
    obtain ⟨r1, u⟩ := p
    rw [hn] at h
    have hsp : parse_special i = none := by
      rw [pnot] at hn
      cases hq : parse_special i with
      | none => rfl
      | some q => rw [hq] at hn; exact absurd hn (by simp)
    have hr1 : i = r1 := by
      rw [pnot, hsp] at hn
      simp at hn
      exact hn
    subst hr1
    cases hi : i with
    | nil => rw [hi] at h; exact absurd h (by simp [take1])
    | cons d s =>
      rw [hi] at h
      simp only [take1] at h
      simp only [Option.some.injEq, Prod.mk.injEq] at h
      obtain ⟨hr, hc⟩ := h
      subst hc
      intro hceq
      subst hceq
      rw [hi, parse_special_newline] at hsp
      exact absurd hsp (by simp)

theorem pmanyAux_plain_no_newline :
    ∀ fuel : Nat, ∀ i r : Input, ∀ vs : List Char,
      pmanyAux plain_step fuel i = some (r, vs) → '\n' ∉ vs := by
  intro fuel
  induction fuel with
  | zero =>
    intro i r vs h
    rw [pmanyAux] at h
    cases hp : plain_step i with
    | none =>
      rw [hp] at h
      simp only [Option.some.injEq, Prod.mk.injEq] at h
      rw [← h.2]
      simp
    | some p => rw [hp] at h; exact absurd h (by simp)
  | succ n ih =>
    intro i r vs h
    rw [pmanyAux] at h
    cases hp : plain_step i with
    | none =>
      rw [hp] at h
      simp only [Option.some.injEq, Prod.mk.injEq] at h
      rw [← h.2]
      simp
    | some p =>
      obtain ⟨r1, c⟩ := p
      rw [hp] at h
      dsimp only at h
      by_cases hlt : r1.length < i.length
      · rw [if_pos hlt] at h
        cases hm : pmanyAux plain_step n r1 with
        | none => rw [hm] at h; exact absurd h (by simp)
        | some q =>
          obtain ⟨r2, vs2⟩ := q
          rw [hm] at h
          simp only [Option.some.injEq, Prod.mk.injEq] at h
          rw [← h.2]
          intro hmem
          simp only [List.mem_cons] at hmem
          cases hmem with
          | inl h1 => exact plain_step_some_ne_newline hp h1.symm
          | inr h2 => exact ih r1 r2 vs2 hm h2
      · rw [if_neg hlt] at h
        exact absurd h (by simp)

end DoubleDown

namespace DoubleDown

/-! ### Claim theorems -/

/-- C1 (amended): the paragraph/Text fallback `parse_markdown_text` succeeds on
every remaining input whose first line is terminated by a newline and contains
no inline marker character (`*`, `` ` ``, `[`; a line without `[` also contains
no `![`), consuming exactly that line and stripping the newline; an empty line
yields the empty inline sequence (a `Text` block with empty content).  The
original claim, quantified over all inputs ending in a newline, is refuted by
the unterminated-marker counterexample. -/
theorem text_fallback_safe_line (line rest : Input)
    (h : ∀ c ∈ line, c ≠ '*' ∧ c ≠ '`' ∧ c ≠ '[' ∧ c ≠ '\n') :
    parse_markdown_text (line ++ '\n' :: rest)
      = some (rest, if line = [] then [] else [.Plain line]) := by
  have htag : ptag ['\n'] ('\n' :: rest) = some (rest, ['\n']) := ptag_append ['\n'] rest
  cases line with
  | nil =>
    have hm : pmany0 parse_markdown_inline ('\n' :: rest) = some ('\n' :: rest, []) :=
      pmany0_of_none (inline_none_newline rest)
    rw [List.nil_append]
    simp only [parse_markdown_text, pterminated, hm, htag]
    rfl
  | cons c line2 =>
    have hplain := parse_plain_line (c :: line2) rest (by simp) h
    have hinl := inline_of_plain hplain
    have hm : pmany0 parse_markdown_inline ((c :: line2) ++ '\n' :: rest)
        = some ('\n' :: rest, [.Plain (c :: line2)]) := by
      rw [pmany0_of_some hinl (by simp only [List.length_cons, List.length_append]; omega),
          pmany0_of_none (inline_none_newline rest)]
    simp only [parse_markdown_text, pterminated, hm, htag]
    rfl

/-- C1 witness: a concrete marker-free line. -/
theorem text_fallback_safe_line_witness :
    parse_markdown_text ("hello".toList ++ '\n' :: [])
      = some ([], if ("hello".toList : Input) = [] then [] else [.Plain "hello".toList]) :=
  text_fallback_safe_line "hello".toList [] (by decide)

/-- C1 counterexample: the input is non-empty and ends in a newline, yet the
fallback fails (unterminated italic marker: `is_not("*")` eats the newline and
the closing `tag("*")` then fails, so `many0` stops before the first char and
the final `tag("\n")` does not match). -/
theorem text_fallback_unterminated_fails :
    parse_markdown_text ("*broken\n".toList) = none := by decide

/-- C2 (amended): `parse_plain` never produces a token containing a newline
(`take(1)` is guarded by `not(tag("\n"))`, among others).  The original claim
that no inline token at all spans a newline is refuted: delimited matchers use
`is_not` sets that do not exclude `'\n'`. -/
theorem parse_plain_no_newline (i r : Input) (s : List Char)
    (h : parse_plain i = some (r, s)) : '\n' ∉ s := by
  rw [parse_plain, pmany1] at h
  cases hp : plain_step i with
  | none => rw [hp] at h; exact absurd h (by simp)
  | some p =>
    obtain ⟨r1, c⟩ := p
    rw [hp] at h
    dsimp only at h
    by_cases hlt : r1.length < i.length
    · rw [if_pos hlt] at h
      cases hm : pmany0 plain_step r1 with
      | none => rw [hm] at h; exact absurd h (by simp)
      | some q =>
        obtain ⟨r2, vs2⟩ := q
        rw [hm] at h
        simp only [Option.some.injEq, Prod.mk.injEq] at h
        rw [← h.2]
        intro hmem
        simp only [List.mem_cons] at hmem
        cases hmem with
        | inl h1 => exact plain_step_some_ne_newline hp h1.symm
        | inr h2 => exact pmanyAux_plain_no_newline (r1.length + 1) r1 r2 vs2 hm h2
    · rw [if_neg hlt] at h
      exact absurd h (by simp)

/-- C2 witness. -/
theorem parse_plain_no_newline_witness : '\n' ∉ ("ab".toList : List Char) :=
  parse_plain_no_newline "ab\n".toList ['\n'] "ab".toList (by decide)

/-- C2 counterexample: the document `"*a\nb*\n"` is accepted by the parser and
contains an `Italic` token whose text spans a newline, so a `MarkdownText` in a
non-code block is not always the content of exactly one source line. -/
theorem accepted_italic_spans_newline :
    parse_markdown ("*a\nb*\n".toList) = some ([], [.Text [.Italic "a\nb".toList]])
      ∧ '\n' ∈ "a\nb".toList :=
  ⟨by decide, by decide⟩

/-- C3 (amended): the fence line must contain at least one character between
the opening backticks and the newline (`is_not("\n")` requires a non-empty
match); a whitespace-only remainder is trimmed to the empty string and yields
language `None`, and a non-empty remainder is the language tag. -/
theorem code_block_language_trim :
    parse_markdown ("``` \ncode\n```".toList) = some ([], [.CodeBlock "code\n".toList none])
      ∧ parse_markdown ("```py\nx = 1\n```".toList)
        = some ([], [.CodeBlock "x = 1\n".toList (some "py".toList)]) :=
  ⟨by decide, by decide⟩

/-- C3 counterexample: a fence whose opening line is blank (three backticks
immediately followed by a newline) fails to parse — both `parse_code_block`
itself and the whole document parse reject it. -/
theorem code_block_blank_fence_fails :
    parse_code_block ("```\ncode\n```".toList) = none
      ∧ parse_markdown ("```\ncode\n```".toList) = none :=
  ⟨by decide, by decide⟩

/-- C4 (amended): a code block's body is preserved verbatim — line breaks and
indentation included — and is never passed to the inline engine, but only when
it contains no backtick at all: `is_not("```")` is a character set `{'`'}`, so
the body extends to the first backtick, which must begin the closing fence. -/
theorem parse_code_block_verbatim (lang code rest : Input)
    (hl : lang ≠ []) (hln : ∀ c ∈ lang, c ≠ '\n')
    (hc : code ≠ []) (hcb : ∀ c ∈ code, c ≠ '`') :
    parse_code_block
        ('`' :: '`' :: '`' :: (lang ++ '\n' :: (code ++ '`' :: '`' :: '`' :: rest)))
      = some (rest, (lang, code)) := by
  have h1 : ptag ['`', '`', '`']
        ('`' :: '`' :: '`' :: (lang ++ '\n' :: (code ++ '`' :: '`' :: '`' :: rest)))
      = some (lang ++ '\n' :: (code ++ '`' :: '`' :: '`' :: rest), ['`', '`', '`']) :=
    ptag_append ['`', '`', '`'] _
  have h2 : isNotP ['\n'] (lang ++ '\n' :: (code ++ '`' :: '`' :: '`' :: rest))
      = some ('\n' :: (code ++ '`' :: '`' :: '`' :: rest), lang) := by
    refine isNotP_append _ _ _ hl ?_ ?_
    · intro c hcm
      refine contains_false_of_forall_ne ?_
      intro d hd
      simp at hd
      subst hd
      exact hln c hcm
    · intro c hcm
      simp at hcm
      subst hcm
      exact contains_true_of_mem (by simp)
  have h3 : ptag ['\n'] ('\n' :: (code ++ '`' :: '`' :: '`' :: rest))
      = some (code ++ '`' :: '`' :: '`' :: rest, ['\n']) := ptag_append ['\n'] _
  have h4 : ptag [] (code ++ '`' :: '`' :: '`' :: rest)
      = some (code ++ '`' :: '`' :: '`' :: rest, []) := ptag_append [] _
  have h5 : isNotP ['`', '`', '`'] (code ++ '`' :: '`' :: '`' :: rest)
      = some ('`' :: '`' :: '`' :: rest, code) := by
    refine isNotP_append _ _ _ hc ?_ ?_
    · intro c hcm
      refine contains_false_of_forall_ne ?_
      intro d hd
      simp at hd
      subst hd
      exact hcb c hcm
    · intro c hcm
      simp at hcm
      subst hcm
      exact contains_true_of_mem (by simp)
  have h6 : ptag ['`', '`', '`'] ('`' :: '`' :: '`' :: rest) = some (rest, ['`', '`', '`']) :=
    ptag_append ['`', '`', '`'] rest
  simp only [parse_code_block, ppair, pdelimited, h1, h2, h3, h4, h5, h6]

/-- C4 witness. -/
theorem parse_code_block_verbatim_witness :
    parse_code_block
        ('`' :: '`' :: '`' :: ("py".toList ++ '\n' :: ("x = 1\n".toList ++ '`' :: '`' :: '`' :: [])))
      = some ([], ("py".toList, "x = 1\n".toList)) :=
  parse_code_block_verbatim "py".toList "x = 1\n".toList [] (by decide) (by decide)
    (by decide) (by decide)

/-- C4 counterexample: a code block containing a single backtick in its body is
rejected, contradicting the claim that content with single or double backticks
is preserved verbatim. -/
theorem code_block_backtick_content_fails :
    parse_code_block ("```rs\na`b\n```".toList) = none := by decide

/-- C5 (amended): `parse_bold` succeeds exactly on inputs of the form
`"**" ++ t ++ "**" ++ rest` where the inner text `t` is non-empty and contains
no `'*'` character at all (nom's `is_not("**")` is the character set `{'*'}`),
returning the inner text; in particular an inner single `'*'` makes it fail,
contrary to the original claim. -/
theorem parse_bold_characterization (i r t : Input) :
    parse_bold i = some (r, t) ↔
      t ≠ [] ∧ (∀ c ∈ t, c ≠ '*') ∧ i = '*' :: '*' :: (t ++ '*' :: '*' :: r) := by
  constructor
  · intro h
    rw [parse_bold, pdelimited] at h
    cases h1 : ptag ['*', '*'] i with
    | none => rw [h1] at h; exact absurd h (by simp)
    | some p1 =>
      obtain ⟨r1, v1⟩ := p1
      rw [h1] at h
      dsimp only at h
      cases h2 : isNotP ['*', '*'] r1 with
      | none => rw [h2] at h; exact absurd h (by simp)
      | some p2 =>
        obtain ⟨r2, t2⟩ := p2
        rw [h2] at h
        dsimp only at h
        cases h3 : ptag ['*', '*'] r2 with
        | none => rw [h3] at h; exact absurd h (by simp)
        | some p3 =>
          obtain ⟨r3, v3⟩ := p3
          rw [h3] at h
          simp only [Option.some.injEq, Prod.mk.injEq] at h
          obtain ⟨hr3, ht2⟩ := h
          subst hr3
          subst ht2
          obtain ⟨hv1, hi⟩ := ptag_some h1
          obtain ⟨hr1, hne2, hstar⟩ := isNotP_some h2
          obtain ⟨hv3, hr2eq⟩ := ptag_some h3
          refine ⟨hne2, ?_, ?_⟩
          · intro c hcm
            intro hceq
            have := hstar c hcm
            rw [hceq] at this
            rw [contains_true_of_mem (by simp : '*' ∈ (['*', '*'] : Input))] at this
            exact absurd this (by simp)
          · rw [hi, hr1, hr2eq]
            rfl
  · rintro ⟨hne, hstar, hi⟩
    rw [hi]
    exact parse_bold_append t r hne hstar

/-- C5 witness: a valid bold span. -/
theorem parse_bold_characterization_witness :
    parse_bold ('*' :: '*' :: (['a'] ++ '*' :: '*' :: [])) = some ([], ['a']) :=
  (parse_bold_characterization ('*' :: '*' :: (['a'] ++ '*' :: '*' :: [])) [] ['a']).mpr
    ⟨by decide, by decide, rfl⟩

/-- C5 counterexample: the inner text `"a*b"` contains a single `'*'` but not
the two-character sequence `"**"`; the claim predicts success with inner text
`"a*b"`, yet `parse_bold` fails. -/
theorem bold_single_star_inner_fails : parse_bold "**a*b**".toList = none := by decide

/-- C6: the inline dispatcher tries bold before italic, so a line `"**x**\n"`
with marker-free non-empty inner text decodes to exactly the single token
`Bold x` (never italic-then-something). -/
theorem bold_before_italic (x : List Char) (hne : x ≠ [])
    (h : ∀ c ∈ x, c ≠ '*' ∧ c ≠ '`' ∧ c ≠ '[' ∧ c ≠ '\n') :
    parse_markdown_text ('*' :: '*' :: (x ++ '*' :: '*' :: ['\n']))
      = some ([], [.Bold x]) := by
  have hplain : parse_plain ('*' :: '*' :: (x ++ '*' :: '*' :: ['\n'])) = none := by
    rw [parse_plain, pmany1, plain_step_none_star]
  have hbold := parse_bold_append x ['\n'] hne (fun c hc => (h c hc).1)
  have hinl : parse_markdown_inline ('*' :: '*' :: (x ++ '*' :: '*' :: ['\n']))
      = some (['\n'], .Bold x) := by
    rw [parse_markdown_inline, hplain, hbold]
  have hm : pmany0 parse_markdown_inline ('*' :: '*' :: (x ++ '*' :: '*' :: ['\n']))
      = some (['\n'], [.Bold x]) := by
    rw [pmany0_of_some hinl (by simp only [List.length_cons, List.length_append]; omega),
        pmany0_of_none (inline_none_newline [])]
  have htag : ptag ['\n'] (['\n'] : Input) = some ([], ['\n']) := ptag_append ['\n'] []
  simp only [parse_markdown_text, pterminated, hm, htag]

/-- C6 witness. -/
theorem bold_before_italic_witness :
    parse_markdown_text ('*' :: '*' :: (['x'] ++ '*' :: '*' :: ['\n']))
      = some ([], [.Bold ['x']]) :=
  bold_before_italic ['x'] (by decide) (by decide)

/-- C7: for each heading depth from 1 to 6, `k` hash characters, one space,
`"title"` and a newline parse to the single block `Heading k [Plain "title"]`;
the level is the count of leading hashes. -/
theorem heading_level_count (k : Nat) (h1 : 1 ≤ k) (h2 : k ≤ 6) :
    parse_markdown (List.replicate k '#' ++ " title\n".toList)
      = some ([], [.Heading k [.Plain "title".toList]]) := by
  interval_cases k <;> decide

/-- C7 witness. -/
theorem heading_level_count_witness :
    parse_markdown (List.replicate 3 '#' ++ " title\n".toList)
      = some ([], [.Heading 3 [.Plain "title".toList]]) :=
  heading_level_count 3 (by decide) (by decide)

/-- C8: an unordered list stops at the first line lacking the `"- "` prefix —
`"- a\n- b\nPlain line\n"` parses to exactly two blocks, the two-item list and
a separate `Text` block. -/
theorem list_termination :
    parse_markdown ("- a\n- b\nPlain line\n".toList)
      = some ([], [.UnorderedList [[.Plain ['a']], [.Plain ['b']]],
                   .Text [.Plain "Plain line".toList]]) := by decide

/-- C9: the document parser is a `many1`, so the empty input is a parse
failure, not an empty document. -/
theorem empty_input_fails : parse_markdown ([] : Input) = none := by decide

/-- C10: every delimited inline matcher requires non-empty inner content —
each of the listed empty-delimiter inputs is rejected rather than producing a
token carrying the empty string. -/
theorem empty_delimited_fail :
    parse_bold "****".toList = none
      ∧ parse_italic "**".toList = none
      ∧ parse_inline "``".toList = none
      ∧ parse_link "[](u)".toList = none
      ∧ parse_link "[t]()".toList = none
      ∧ parse_image "![](u)".toList = none
      ∧ parse_image "![t]()".toList = none :=
  ⟨by decide, by decide, by decide, by decide, by decide, by decide, by decide⟩

end DoubleDown
